import Mathlib

/-!
Verification of the simplelogincli API-client core against its design
specification.  The Go sources under `cmd/simplelogin` and `pkg/api` are
shallowly embedded: JSON documents become the inductive `JValue`,
`encoding/json` marshalling/unmarshalling becomes explicit functions on
`JValue`, HTTP requests become the record `Request`, and each client
method becomes the pure function that builds its request and the pure
function that classifies its response.
-/

namespace SimpleLogin

/-- A JSON document, the shape produced and consumed by Go's
`encoding/json`.  Numbers are kept as integers: every numeric value the
client reads or writes (ids, counters, timestamps) is integral, and the
response parser only ever needs to know that a number is not a string. -/
inductive JValue where
  | null
  | bool (b : Bool)
  | num (n : Int)
  | str (s : String)
  | arr (elems : List JValue)
  | obj (fields : List (String × JValue))

/-! ## A JSON text parser

`doJSON` in `pkg/api/client.go` receives the raw response body as bytes
and hands it to `json.Unmarshal`.  The parser below models the lexical
layer of `encoding/json`: it accepts exactly the well-formed JSON texts
(modulo the integer reading of numbers: a fractional part or exponent is
consumed and validated but its value is dropped, which is enough because
no theorem below inspects a non-integral numeric value). -/

/-- JSON insignificant whitespace. -/
def isJsonWs (c : Char) : Bool :=
  c = ' ' || c = '\t' || c = '\n' || c = '\r'

/-- Drop leading JSON whitespace. -/
def skipWs : List Char → List Char
  | [] => []
  | c :: rest => if isJsonWs c then skipWs rest else c :: rest

/-- Value of a hexadecimal digit. -/
def hexVal (c : Char) : Option Nat :=
  if '0' ≤ c ∧ c ≤ '9' then some (c.toNat - '0'.toNat)
  else if 'a' ≤ c ∧ c ≤ 'f' then some (c.toNat - 'a'.toNat + 10)
  else if 'A' ≤ c ∧ c ≤ 'F' then some (c.toNat - 'A'.toNat + 10)
  else none

/-- Decode a `\uXXXX` escape; out-of-range scalars fall back to U+FFFD
as Go's decoder does for lone surrogates. -/
def charOfCode (n : Nat) : Char :=
  if n < 0xd800 ∨ (0xe000 ≤ n ∧ n < 0x110000) then
    Char.ofNat n
  else
    Char.ofNat 0xfffd

/-- Parse the remainder of a JSON string literal (the opening quote has
been consumed), returning the decoded string and the rest of the input.
`fuel` bounds the scan and is at least the input length at every call
site, so it never runs out on a well-formed literal. -/
def parseStringBody (fuel : Nat) (acc : List Char) (cs : List Char) :
    Option (String × List Char) :=
  match fuel with
  | 0 => none
  | Nat.succ fuel =>
    match cs with
    | [] => none
    | '"' :: rest => some (String.mk acc.reverse, rest)
    | '\\' :: rest =>
      match rest with
      | '"' :: r => parseStringBody fuel ('"' :: acc) r
      | '\\' :: r => parseStringBody fuel ('\\' :: acc) r
      | '/' :: r => parseStringBody fuel ('/' :: acc) r
      | 'b' :: r => parseStringBody fuel ('\x08' :: acc) r
      | 'f' :: r => parseStringBody fuel ('\x0c' :: acc) r
      | 'n' :: r => parseStringBody fuel ('\n' :: acc) r
      | 'r' :: r => parseStringBody fuel ('\r' :: acc) r
      | 't' :: r => parseStringBody fuel ('\t' :: acc) r
      | 'u' :: a :: b :: c :: d :: r =>
        match hexVal a, hexVal b, hexVal c, hexVal d with
        | some ha, some hb, some hc, some hd =>
          parseStringBody fuel (charOfCode (ha * 4096 + hb * 256 + hc * 16 + hd) :: acc) r
        | _, _, _, _ => none
      | _ => none
    | c :: rest =>
      if c.toNat < 0x20 then none else parseStringBody fuel (c :: acc) rest

/-- Parse the digits of a JSON number after an optional minus sign:
an integer part with no superfluous leading zero, then an optional
fraction and exponent, which are consumed but whose value is dropped. -/
def parseNumTail (cs : List Char) : Option (Nat × List Char) :=
  match cs with
  | [] => none
  | c :: rest =>
    if c = '0' then some (0, rest)
    else if c.isDigit then
      let digits := rest.takeWhile Char.isDigit
      let value := (c :: digits).foldl (fun n d => n * 10 + (d.toNat - '0'.toNat)) 0
      some (value, rest.dropWhile Char.isDigit)
    else none

/-- Consume an optional fraction part (`.digits`). -/
def parseFrac (cs : List Char) : Option (List Char) :=
  match cs with
  | '.' :: rest =>
    match rest.takeWhile Char.isDigit with
    | [] => none
    | _ => some (rest.dropWhile Char.isDigit)
  | _ => some cs

/-- Consume an optional exponent part (`[eE][+-]?digits`). -/
def parseExp (cs : List Char) : Option (List Char) :=
  match cs with
  | c :: rest =>
    if c = 'e' ∨ c = 'E' then
      let rest2 := match rest with
        | s :: r => if s = '+' ∨ s = '-' then r else rest
        | [] => rest
      match rest2.takeWhile Char.isDigit with
      | [] => none
      | _ => some (rest2.dropWhile Char.isDigit)
    else some cs
  | [] => some cs

/-- Parse a JSON number, returning its integer part as the value. -/
def parseNumber (cs : List Char) : Option (JValue × List Char) :=
  match cs with
  | '-' :: rest => do
    let (n, r1) ← parseNumTail rest
    let r2 ← parseFrac r1
    let r3 ← parseExp r2
    pure (JValue.num (-(n : Int)), r3)
  | _ => do
    let (n, r1) ← parseNumTail cs
    let r2 ← parseFrac r1
    let r3 ← parseExp r2
    pure (JValue.num (n : Int), r3)

/-- What the recursive-descent core is currently parsing: a single
value, the element list of an array, or the member list of an object. -/
inductive PMode where
  | pvalue
  | plist
  | pobj

/-- The result of one step of the recursive-descent core, matching the
mode it was called in. -/
inductive POut where
  | val (v : JValue)
  | elems (vs : List JValue)
  | members (fs : List (String × JValue))

/-- Recursive-descent JSON core.  `fuel` bounds the recursion depth and
is set to the input length plus one at the top level, which suffices
since every recursive call consumes at least one character.  In
`pvalue` mode it parses one value; in `plist`/`pobj` mode it parses a
non-empty comma-separated element/member list up to the closing
bracket/brace. -/
def parseCore (fuel : Nat) (mode : PMode) (cs : List Char) :
    Option (POut × List Char) :=
  match fuel with
  | 0 => none
  | Nat.succ fuel =>
    match mode with
    | PMode.pvalue =>
      match skipWs cs with
      | 'n' :: 'u' :: 'l' :: 'l' :: rest => some (POut.val JValue.null, rest)
      | 't' :: 'r' :: 'u' :: 'e' :: rest => some (POut.val (JValue.bool true), rest)
      | 'f' :: 'a' :: 'l' :: 's' :: 'e' :: rest => some (POut.val (JValue.bool false), rest)
      | '"' :: rest =>
        match parseStringBody (rest.length + 1) [] rest with
        | some (s, r) => some (POut.val (JValue.str s), r)
        | none => none
      | '[' :: rest =>
        match skipWs rest with
        | ']' :: r => some (POut.val (JValue.arr []), r)
        | cs2 =>
          match parseCore fuel PMode.plist cs2 with
          | some (POut.elems vs, r) => some (POut.val (JValue.arr vs), r)
          | _ => none
      | '{' :: rest =>
        match skipWs rest with
        | '}' :: r => some (POut.val (JValue.obj []), r)
        | cs2 =>
          match parseCore fuel PMode.pobj cs2 with
          | some (POut.members fs, r) => some (POut.val (JValue.obj fs), r)
          | _ => none
      | cs2 =>
        match parseNumber cs2 with
        | some (v, r) => some (POut.val v, r)
        | none => none
    | PMode.plist =>
      match parseCore fuel PMode.pvalue cs with
      | some (POut.val v, r1) =>
        match skipWs r1 with
        | ',' :: r2 =>
          match parseCore fuel PMode.plist r2 with
          | some (POut.elems vs, r) => some (POut.elems (v :: vs), r)
          | _ => none
        | ']' :: r2 => some (POut.elems [v], r2)
        | _ => none
      | _ => none
    | PMode.pobj =>
      match skipWs cs with
      | '"' :: rest =>
        match parseStringBody (rest.length + 1) [] rest with
        | some (k, r1) =>
          match skipWs r1 with
          | ':' :: r2 =>
            match parseCore fuel PMode.pvalue r2 with
            | some (POut.val v, r3) =>
              match skipWs r3 with
              | ',' :: r4 =>
                match parseCore fuel PMode.pobj r4 with
                | some (POut.members fs, r) => some (POut.members ((k, v) :: fs), r)
                | _ => none
              | '}' :: r4 => some (POut.members [(k, v)], r4)
              | _ => none
            | _ => none
          | _ => none
        | none => none
      | _ => none

/-- Parse a complete JSON text: one value, with only whitespace allowed
after it, as `json.Unmarshal` requires. -/
def parseJSON (s : String) : Option JValue :=
  match parseCore (s.length + 1) PMode.pvalue s.toList with
  | some (POut.val v, rest) => if skipWs rest = [] then some v else none
  | _ => none

/-! ## Query encoding and request construction

`newReq` in `pkg/api/client.go` appends the encoded query to the path
with `?` or `&`, sets the `Authentication` header exactly when the API
key is non-empty, and sets the JSON content type exactly when a body is
present.  Query encoding follows `net/url.Values.Encode`: keys sorted,
each key and value percent-escaped with spaces as `+`. -/

/-- Whitespace as `strings.TrimSpace` recognises it (the Latin-1 part
of Unicode White_Space, which covers every byte a response body can
carry below U+1680). -/
def isGoSpace (c : Char) : Bool :=
  c = ' ' || c = '\t' || c = '\n' || c = '\x0b' || c = '\x0c' || c = '\r' ||
  c.toNat = 0x85 || c.toNat = 0xa0

/-- Model of `strings.TrimSpace`: drop leading and trailing whitespace. -/
def goTrim (s : String) : String :=
  String.mk (((s.toList.dropWhile isGoSpace).reverse.dropWhile isGoSpace).reverse)

/-- Model of `strings.ToLower` on the ASCII range, which covers every struct tag
and mode value the client lowercases. -/
def asciiLower (s : String) : String :=
  String.mk (s.toList.map Char.toLower)

/-- Model of `strings.Contains(s, "?")`. -/
def hasQMark (s : String) : Bool :=
  s.toList.any (fun c => c = '?')

/-- Uppercase hexadecimal digit for percent-escaping. -/
def hexDigit (n : Nat) : Char :=
  if n < 10 then Char.ofNat ('0'.toNat + n) else Char.ofNat ('A'.toNat + n - 10)

/-- UTF-8 bytes of a scalar value, as Go encodes strings. -/
def utf8Bytes (n : Nat) : List Nat :=
  if n < 0x80 then [n]
  else if n < 0x800 then [0xc0 + n / 64, 0x80 + n % 64]
  else if n < 0x10000 then [0xe0 + n / 4096, 0x80 + n / 64 % 64, 0x80 + n % 64]
  else [0xf0 + n / 0x40000, 0x80 + n / 4096 % 64, 0x80 + n / 64 % 64, 0x80 + n % 64]

/-- Characters `net/url.QueryEscape` leaves unescaped. -/
def isUnreserved (c : Char) : Bool :=
  c.isAlphanum || c = '-' || c = '_' || c = '.' || c = '~'

/-- Escape one character as `net/url.QueryEscape` does. -/
def escapeChar (c : Char) : List Char :=
  if isUnreserved c then [c]
  else if c = ' ' then ['+']
  else (utf8Bytes c.toNat).foldr
    (fun b acc => '%' :: hexDigit (b / 16) :: hexDigit (b % 16) :: acc) []

/-- Model of `net/url.QueryEscape`. -/
def queryEscape (s : String) : String :=
  String.mk (s.toList.foldr (fun c acc => escapeChar c ++ acc) [])

/-- Insert a parameter into a key-sorted parameter list, keeping the
sort by key as `url.Values.Encode` produces. -/
def insertByKey (p : String × String) : List (String × String) → List (String × String)
  | [] => [p]
  | q :: rest =>
    if compare p.1 q.1 = Ordering.gt then q :: insertByKey p rest else p :: q :: rest

/-- Sort parameters by key, as `url.Values.Encode` iterates keys in
sorted order. -/
def sortByKey : List (String × String) → List (String × String)
  | [] => []
  | p :: rest => insertByKey p (sortByKey rest)

/-- Join encoded `key=value` pairs with `&`. -/
def joinParams : List String → String
  | [] => ""
  | [p] => p
  | p :: rest => p ++ "&" ++ joinParams rest

/-- Model of `url.Values.Encode`: sorted keys, escaped keys and values. -/
def encodeQuery (q : List (String × String)) : String :=
  joinParams ((sortByKey q).map (fun p => queryEscape p.1 ++ "=" ++ queryEscape p.2))

/-- An outgoing HTTP request as the client assembles it: method, full
URL, headers and optional JSON body. -/
structure Request where
  method : String
  url : String
  headers : List (String × String)
  body : Option JValue

/-- Model of `Client.newReq`: build the full URL from base URL, path and query
(appending with `&` when the path already carries `?`, with `?`
otherwise, and only when the query is non-empty), attach the
`Authentication` header exactly when the API key is non-empty, and the
JSON content type exactly when a body is present. -/
def newReq (apiKey baseURL method path : String) (body : Option JValue)
    (query : List (String × String)) : Request :=
  let full := baseURL ++ path
  let full :=
    if query ≠ [] then
      if hasQMark full then full ++ "&" ++ encodeQuery query
      else full ++ "?" ++ encodeQuery query
    else full
  { method := method
    url := full
    headers :=
      (if apiKey ≠ "" then [("Authentication", apiKey)] else []) ++
      (if body.isSome then [("Content-Type", "application/json")] else [])
    body := body }

/-! ## Response classification

`Client.doJSON` treats any status `≥ 300` as failure; it feeds the raw
body to `json.Unmarshal` with target `struct { Error string }` and uses
the `error` field when that succeeds with a non-empty string, else the
whitespace-trimmed raw body. -/

/-- Scan the members of a JSON object as `json.Unmarshal` assigns them
to `struct { Error string }`: member keys matching the `error` tag
(Go falls back to a case-insensitive match) must hold a string or null,
later members overwrite earlier ones, and null leaves the field
untouched. -/
def errorFieldOf : List (String × JValue) → String → Option String
  | [], acc => some acc
  | (k, v) :: rest, acc =>
    if asciiLower k = "error" then
      match v with
      | JValue.str s => errorFieldOf rest s
      | JValue.null => errorFieldOf rest acc
      | _ => none
    else errorFieldOf rest acc

/-- Model of `json.Unmarshal(body, &e)` for `e : struct { Error string }`:
`some s` is a nil error with `e.Error = s`; `none` is a non-nil error
(invalid JSON, a non-object top level, or an `error` member that is
neither a string nor null). -/
def goErrorField (body : String) : Option String :=
  match parseJSON body with
  | some (JValue.obj fields) => errorFieldOf fields ""
  | some JValue.null => some ""
  | _ => none

/-- The `"HTTP <status>: <text>"` message `doJSON` formats. -/
def httpErrMsg (status : Nat) (text : String) : String :=
  "HTTP " ++ toString status ++ ": " ++ text

/-- Model of `Client.doJSON` after the round-trip: classify a response from its
status code and raw body.  `wantOut` records whether the caller passed a
decode target. On success with a target the body must parse; `ok none`
with no target models the discarded body of delete. The fixed text of
the decode-failure error stands for the `encoding/json` error value,
which the client surfaces verbatim. -/
def handleResponse (status : Nat) (body : String) (wantOut : Bool) :
    Except String (Option JValue) :=
  if 300 ≤ status then
    match goErrorField body with
    | some e =>
      if e ≠ "" then Except.error (httpErrMsg status e)
      else Except.error (httpErrMsg status (goTrim body))
    | none => Except.error (httpErrMsg status (goTrim body))
  else if wantOut then
    match parseJSON body with
    | some v => Except.ok (some v)
    | none => Except.error "json: cannot decode response body"
  else Except.ok none

/-! ## Data model

The response and request shapes from `pkg/api/client.go`.  Go's nilable
pointers (`*string`) become `Option String`, and a nilable slice
(`[]int`) becomes `Option (List Int)` so that nil (serialized as JSON
null) and the empty slice (serialized as `[]`) stay distinct, as they
are on the wire. -/

/-- Model of `api.Alias`. -/
structure Alias where
  id : Int
  email : String
  name : Option String
  enabled : Bool
  creationTimestamp : Int
  note : Option String
  nbBlock : Int
  nbForward : Int
  nbReply : Int
  pinned : Bool
  deriving DecidableEq

/-- Model of `api.SuffixOption`. -/
structure SuffixOption where
  signedSuffix : String
  suffix : String
  isCustom : Bool
  isPremium : Bool
  deriving DecidableEq

/-- Model of `api.AliasOptionsResponse`. -/
structure AliasOptionsResponse where
  canCreate : Bool
  prefixSuggestion : String
  suffixes : List SuffixOption
  deriving DecidableEq

/-- Model of `api.Mailbox`. -/
structure Mailbox where
  id : Int
  email : String
  default : Bool
  verified : Bool
  deriving DecidableEq

/-- Model of `api.createCustomAliasRequest`; `aliasPre` embeds the Go field
`AliasPrefix` (JSON tag `alias_prefix`). -/
structure CustomAliasRequest where
  aliasPre : String
  signedSuffix : String
  mailboxIDs : Option (List Int)
  note : Option String
  name : Option String
  deriving DecidableEq

/-! ## Client methods -/

/-- The query `Client.AliasOptions` builds: the hostname parameter is
set (with the original, untrimmed value) only when the hostname is
non-blank. -/
def aliasOptionsQuery (hostname : String) : List (String × String) :=
  if goTrim hostname ≠ "" then [("hostname", hostname)] else []

/-- Model of `Client.AliasOptions`: GET `/api/v5/alias/options` with the
conditional hostname parameter. -/
def aliasOptionsReq (apiKey baseURL hostname : String) : Request :=
  newReq apiKey baseURL "GET" "/api/v5/alias/options" none (aliasOptionsQuery hostname)

/-- The query `Client.CreateRandomAlias` builds: conditional hostname,
and the mode lower-cased after trimming and included only when the
trimmed mode is non-empty. -/
def randomAliasQuery (hostname mode : String) : List (String × String) :=
  aliasOptionsQuery hostname ++
    (if asciiLower (goTrim mode) ≠ "" then [("mode", asciiLower (goTrim mode))] else [])

/-- Model of `Client.CreateRandomAlias`: POST `/api/alias/random/new`; the JSON
body `{"note": …}` is attached only when the note pointer is non-nil
and the note is non-empty. -/
def createRandomAliasReq (apiKey baseURL hostname mode : String)
    (note : Option String) : Request :=
  let body : Option JValue :=
    match note with
    | some n => if n ≠ "" then some (JValue.obj [("note", JValue.str n)]) else none
    | none => none
  newReq apiKey baseURL "POST" "/api/alias/random/new" body
    (randomAliasQuery hostname mode)

/-- Model of `json.Marshal` of `createCustomAliasRequest`: fields in struct
order; `mailbox_ids` has no `omitempty`, so a nil slice serializes as
null and an empty slice as `[]`; `note` and `name` carry `omitempty`,
so nil pointers are omitted. -/
def encodeCustomAliasRequest (r : CustomAliasRequest) : JValue :=
  JValue.obj
    ([("alias_prefix", JValue.str r.aliasPre),
      ("signed_suffix", JValue.str r.signedSuffix),
      ("mailbox_ids",
        match r.mailboxIDs with
        | none => JValue.null
        | some ids => JValue.arr (ids.map JValue.num))] ++
     (match r.note with | some n => [("note", JValue.str n)] | none => []) ++
     (match r.name with | some n => [("name", JValue.str n)] | none => []))

/-- Last JSON member assigned to a struct field with the given
lower-case tag: `json.Unmarshal` matches keys case-insensitively and a
later duplicate overwrites an earlier one. -/
def lastField (fields : List (String × JValue)) (key : String) : Option JValue :=
  fields.foldl (fun acc kv => if asciiLower kv.1 = key then some kv.2 else acc) none

/-- Unmarshal a member into a `string` field: absent or null leaves
the zero value, a string assigns, anything else is a type error. -/
def decodeStr : Option JValue → Option String
  | none => some ""
  | some JValue.null => some ""
  | some (JValue.str s) => some s
  | some _ => none

/-- Unmarshal a member into a `*string` field: absent or null leaves
nil, a string allocates, anything else is a type error. -/
def decodeOptStr : Option JValue → Option (Option String)
  | none => some none
  | some JValue.null => some none
  | some (JValue.str s) => some (some s)
  | some _ => none

/-- Unmarshal array elements into `int`s. -/
def decodeInts : List JValue → Option (List Int)
  | [] => some []
  | JValue.num n :: rest => (decodeInts rest).map (n :: ·)
  | _ :: _ => none

/-- Unmarshal a member into an `[]int` field: absent or null leaves the
nil slice, an array of numbers assigns, anything else is a type error. -/
def decodeIDs : Option JValue → Option (Option (List Int))
  | none => some none
  | some JValue.null => some none
  | some (JValue.arr xs) => (decodeInts xs).map some
  | some _ => none

/-- Model of `json.Unmarshal` into `createCustomAliasRequest`. -/
def decodeCustomAliasRequest (v : JValue) : Option CustomAliasRequest :=
  match v with
  | JValue.obj fields => do
    let ap ← decodeStr (lastField fields "alias_prefix")
    let ss ← decodeStr (lastField fields "signed_suffix")
    let ids ← decodeIDs (lastField fields "mailbox_ids")
    let note ← decodeOptStr (lastField fields "note")
    let name ← decodeOptStr (lastField fields "name")
    pure ⟨ap, ss, ids, note, name⟩
  | JValue.null => some ⟨"", "", none, none, none⟩
  | _ => none

/-- Model of `Client.CreateCustomAlias`: POST `/api/v3/alias/custom/new` with
the conditional hostname parameter and the marshalled request body; the
mailbox ID list is serialized unconditionally, with no local check. -/
def createCustomAliasReq (apiKey baseURL hostname aliasPre signedSuffix : String)
    (mailboxIDs : Option (List Int)) (note name : Option String) : Request :=
  newReq apiKey baseURL "POST" "/api/v3/alias/custom/new"
    (some (encodeCustomAliasRequest ⟨aliasPre, signedSuffix, mailboxIDs, note, name⟩))
    (aliasOptionsQuery hostname)

/-- The first for-loop of `Client.DefaultMailboxID`: first mailbox with
the default flag. -/
def findDefaultMb : List Mailbox → Option Mailbox
  | [] => none
  | mb :: rest => if mb.default then some mb else findDefaultMb rest

/-- The second for-loop of `Client.DefaultMailboxID`: first mailbox
with the verified flag. -/
def findVerifiedMb : List Mailbox → Option Mailbox
  | [] => none
  | mb :: rest => if mb.verified then some mb else findVerifiedMb rest

/-- Model of `Client.DefaultMailboxID` on a fetched mailbox list: error on an
empty account, else the first default-flagged mailbox's ID, else the
first verified one's, else the first mailbox's. -/
def defaultMailboxID (mbs : List Mailbox) : Except String Int :=
  match mbs with
  | [] => Except.error "no mailboxes found in account"
  | mb0 :: rest =>
    match findDefaultMb (mb0 :: rest) with
    | some mb => Except.ok mb.id
    | none =>
      match findVerifiedMb (mb0 :: rest) with
      | some mb => Except.ok mb.id
      | none => Except.ok mb0.id

/-! ## Plain-suffix resolution in `runCustom` -/

/-- The suffix-matching for-loop of `runCustom` in
`cmd/simplelogin/main.go`: starting from the empty sentinel, the loop
assigns the signed suffix of the first entry whose plain suffix equals
the requested one and breaks. -/
def scanSuffixes : List SuffixOption → String → String
  | [], _ => ""
  | s :: rest, suffix =>
    if s.suffix = suffix then s.signedSuffix else scanSuffixes rest suffix

/-- The plain-suffix branch of `runCustom`: scan the fetched options
and fail with the local not-found message when the sentinel is still
empty afterwards; on `Except.error` the command exits before any create
request is issued. -/
def resolvePlainSuffix (opt : AliasOptionsResponse) (suffix : String) :
    Except String String :=
  let ss := scanSuffixes opt.suffixes suffix
  if ss = "" then
    Except.error ("suffix \"" ++ suffix ++ "\" not found in available options")
  else Except.ok ss

/-! ## Paged listing and delete (modelled from the spec)

The copy of `pkg/api/client.go` in the sources stops after a
hostname-less `DeleteAlias`; the `ListAliases`, hostname-carrying
`DeleteAlias` and `DeleteAliasByEmail` methods that
`cmd/simplelogin/main.go` and the tests in the extended test file call
are absent, so they are modelled from the specification here. -/

/-- Modelled from the spec: the query of the absent `ListAliases`
method — optional hostname and the page index as `page_id`, per the
wire table and the listing test. -/
def listAliasesQuery (page : Nat) (hostname : String) : List (String × String) :=
  aliasOptionsQuery hostname ++ [("page_id", toString page)]

/-- Modelled from the spec: the absent `ListAliases` method — GET
`/api/v2/aliases` with optional hostname and page-index parameters. -/
def listAliasesReq (apiKey baseURL : String) (page : Nat) (hostname : String) :
    Request :=
  newReq apiKey baseURL "GET" "/api/v2/aliases" none (listAliasesQuery page hostname)

/-- Modelled from the spec: the absent hostname-carrying `DeleteAlias`
method — DELETE `/api/aliases/{id}` with an optional hostname
parameter, no body, response body discarded. -/
def deleteAliasReq (apiKey baseURL : String) (aliasID : Int) (hostname : String) :
    Request :=
  newReq apiKey baseURL "DELETE" ("/api/aliases/" ++ toString aliasID) none
    (aliasOptionsQuery hostname)

/-- One HTTP call of the delete-by-email scan: a page listing or a
delete by ID. -/
inductive ApiCall where
  | listCall (page : Nat)
  | deleteCall (id : Int)
  deriving DecidableEq

/-- The page index of a listing call, if any. -/
def pageOfCall : ApiCall → Option Nat
  | ApiCall.listCall p => some p
  | ApiCall.deleteCall _ => none

/-- Modelled from the spec: the scan loop of the absent
`DeleteAliasByEmail` — the server's listing is a finite sequence of
pages (every page past the end is empty); list pages at increasing
indices until one is empty (stop, nothing found) or one holds an alias
whose email equals the target exactly (stop, found).  Returns the calls
issued and the matched ID. -/
def deleteScan (email : String) : List (List Alias) → Nat → List ApiCall × Option Int
  | [], page => ([ApiCall.listCall page], none)
  | pg :: rest, page =>
    if pg.isEmpty then ([ApiCall.listCall page], none)
    else
      match pg.find? (fun a => a.email = email) with
      | some a => ([ApiCall.listCall page, ApiCall.deleteCall a.id], some a.id)
      | none =>
        let next := deleteScan email rest (page + 1)
        (ApiCall.listCall page :: next.1, next.2)

/-- Modelled from the spec: the absent `DeleteAliasByEmail` — scan from
the service's first page (index 0); on a match issue the delete by the
found ID and return its outcome (`deleteResult` stands for the server's
answer to that delete); when the listing runs out without a match,
return success silently with no delete issued. -/
def deleteAliasByEmail (pages : List (List Alias)) (email : String)
    (deleteResult : Int → Except String Unit) : List ApiCall × Except String Unit :=
  let scan := deleteScan email pages 0
  (scan.1,
   match scan.2 with
   | some id => deleteResult id
   | none => Except.ok ())

/-- Predicate that `t` occurs as a contiguous substring of `s`. -/
def containsStr (s t : String) : Prop :=
  ∃ l r, s = l ++ t ++ r

/-! ## Helper lemmas -/

/-- A successful `find?` splits the list at the first hit. -/
theorem find?_split {α : Type} (p : α → Bool) :
    ∀ (l : List α) (a : α), l.find? p = some a →
      ∃ l₁ l₂, l = l₁ ++ a :: l₂ ∧ p a = true ∧ ∀ x ∈ l₁, p x = false := by
  intro l
  induction l with
  | nil => intro a h; simp [List.find?] at h
  | cons hd tl ih =>
    intro a h
    by_cases hp : p hd
    · rw [List.find?_cons_of_pos _ hp] at h
      obtain rfl : hd = a := by injection h
      exact ⟨[], tl, rfl, hp, by intro x hx; simp at hx⟩
    · rw [List.find?_cons_of_neg _ (by simpa using hp)] at h
      obtain ⟨l₁, l₂, rfl, hpa, hall⟩ := ih a h
      refine ⟨hd :: l₁, l₂, rfl, hpa, ?_⟩
      intro x hx
      rcases List.mem_cons.mp hx with rfl | hx
      · simpa using hp
      · exact hall x hx

/-- The first for-loop of `DefaultMailboxID` is `find?` on the default
flag. -/
theorem findDefaultMb_eq (l : List Mailbox) :
    findDefaultMb l = l.find? (fun mb => mb.default) := by
  induction l with
  | nil => rfl
  | cons hd tl ih =>
    by_cases h : hd.default <;> simp [findDefaultMb, List.find?, h, ih]

/-- The second for-loop of `DefaultMailboxID` is `find?` on the
verified flag. -/
theorem findVerifiedMb_eq (l : List Mailbox) :
    findVerifiedMb l = l.find? (fun mb => mb.verified) := by
  induction l with
  | nil => rfl
  | cons hd tl ih =>
    by_cases h : hd.verified <;> simp [findVerifiedMb, List.find?, h, ih]

/-- The suffix scan loop returns the first match's signed suffix, or
the empty sentinel. -/
theorem scanSuffixes_eq (l : List SuffixOption) (suf : String) :
    scanSuffixes l suf =
      match l.find? (fun s => s.suffix = suf) with
      | some s => s.signedSuffix
      | none => "" := by
  induction l with
  | nil => rfl
  | cons hd tl ih =>
    by_cases h : hd.suffix = suf <;> simp [scanSuffixes, List.find?, h, ih]

/-! ## Claims -/

/-- C2: on every mailbox list, `DefaultMailboxID` fails with the
"no mailboxes" error exactly on the empty list, and otherwise returns
the ID of a default-flagged mailbox when one exists, else the ID of the
first verified mailbox in returned order, else the ID of the first
mailbox — the strict three-tier priority, never a sort; including the
spec's four concrete examples. -/
theorem claim_C2 :
    (∀ mbs : List Mailbox,
      (mbs = [] → defaultMailboxID mbs = Except.error "no mailboxes found in account") ∧
      (∀ mb, mb ∈ mbs → mb.default = true →
        ∃ d, d ∈ mbs ∧ d.default = true ∧ defaultMailboxID mbs = Except.ok d.id) ∧
      ((∀ mb, mb ∈ mbs → mb.default = false) →
        ∀ v, v ∈ mbs → v.verified = true →
          ∃ l₁ d l₂, mbs = l₁ ++ d :: l₂ ∧ d.verified = true ∧
            (∀ x, x ∈ l₁ → x.verified = false) ∧
            defaultMailboxID mbs = Except.ok d.id) ∧
      (∀ h t, mbs = h :: t →
        (∀ mb, mb ∈ mbs → mb.default = false ∧ mb.verified = false) →
        defaultMailboxID mbs = Except.ok h.id)) ∧
    (defaultMailboxID [⟨3, "", false, true⟩, ⟨1, "", true, false⟩] = Except.ok 1 ∧
     defaultMailboxID [⟨9, "", false, true⟩, ⟨5, "", false, false⟩] = Except.ok 9 ∧
     defaultMailboxID [⟨7, "", false, false⟩] = Except.ok 7 ∧
     defaultMailboxID ([] : List Mailbox) =
       Except.error "no mailboxes found in account") := by
  constructor
  · intro mbs
    refine ⟨?_, ?_, ?_, ?_⟩
    · rintro rfl; rfl
    · intro mb hmem hdef
      cases mbs with
      | nil => cases hmem
      | cons mb0 rest =>
        have hne : findDefaultMb (mb0 :: rest) ≠ none := by
          rw [findDefaultMb_eq, Ne, List.find?_eq_none]
          push_neg
          exact ⟨mb, hmem, by simp [hdef]⟩
        cases hfd : findDefaultMb (mb0 :: rest) with
        | none => exact absurd hfd hne
        | some d =>
          have hd := hfd
          rw [findDefaultMb_eq] at hd
          exact ⟨d, List.mem_of_find?_eq_some hd, by simpa using List.find?_some hd,
            by simp [defaultMailboxID, hfd]⟩
    · intro hnodef v hvmem hver
      cases mbs with
      | nil => cases hvmem
      | cons mb0 rest =>
        have hfd : findDefaultMb (mb0 :: rest) = none := by
          rw [findDefaultMb_eq, List.find?_eq_none]
          intro x hx
          simp [hnodef x hx]
        have hne : findVerifiedMb (mb0 :: rest) ≠ none := by
          rw [findVerifiedMb_eq, Ne, List.find?_eq_none]
          push_neg
          exact ⟨v, hvmem, by simp [hver]⟩
        cases hfv : findVerifiedMb (mb0 :: rest) with
        | none => exact absurd hfv hne
        | some d =>
          have hd := hfv
          rw [findVerifiedMb_eq] at hd
          obtain ⟨l₁, l₂, heq, hpd, hall⟩ := find?_split _ _ _ hd
          refine ⟨l₁, d, l₂, heq, by simpa using hpd, ?_, ?_⟩
          · intro x hx
            simpa using hall x hx
          · simp [defaultMailboxID, hfd, hfv]
    · rintro h t rfl hflat
      have hfd : findDefaultMb (h :: t) = none := by
        rw [findDefaultMb_eq, List.find?_eq_none]
        intro x hx
        simp [(hflat x hx).1]
      have hfv : findVerifiedMb (h :: t) = none := by
        rw [findVerifiedMb_eq, List.find?_eq_none]
        intro x hx
        simp [(hflat x hx).2]
      simp [defaultMailboxID, hfd, hfv]
  · exact ⟨rfl, rfl, rfl, rfl⟩

/-- Witness for C2 at the spec's first example. -/
theorem claim_C2_witness :
    (⟨1, "", true, false⟩ : Mailbox) ∈
        [(⟨3, "", false, true⟩ : Mailbox), ⟨1, "", true, false⟩] ∧
    ∃ d : Mailbox,
      d ∈ [(⟨3, "", false, true⟩ : Mailbox), ⟨1, "", true, false⟩] ∧
      d.default = true ∧
      defaultMailboxID [⟨3, "", false, true⟩, ⟨1, "", true, false⟩] = Except.ok d.id :=
  ⟨by decide,
   (claim_C2.1 [⟨3, "", false, true⟩, ⟨1, "", true, false⟩]).2.1
     ⟨1, "", true, false⟩ (by decide) rfl⟩

/-- C3: every response with status at least 300 fails; the message is
"HTTP <status>: <server error text>" when the body unmarshals as a JSON
object with a non-empty `error` string, else
"HTTP <status>: <trimmed raw body>"; and a 400 with body
`{"error":"bad input"}` yields a message containing "bad input" and
"400". -/
theorem claim_C3 :
    (∀ (status : Nat) (body : String) (wantOut : Bool), 300 ≤ status →
      ∃ msg, handleResponse status body wantOut = Except.error msg ∧
        ((∃ e, goErrorField body = some e ∧ e ≠ "" ∧
            msg = "HTTP " ++ toString status ++ ": " ++ e) ∨
         ((∀ e, goErrorField body = some e → e = "") ∧
            msg = "HTTP " ++ toString status ++ ": " ++ goTrim body))) ∧
    (handleResponse 400 "\x7b\"error\":\"bad input\"\x7d" false =
        Except.error "HTTP 400: bad input" ∧
     containsStr "HTTP 400: bad input" "bad input" ∧
     containsStr "HTTP 400: bad input" "400") := by
  constructor
  · intro status body wantOut hge
    unfold handleResponse
    rw [if_pos hge]
    cases hef : goErrorField body with
    | none =>
      refine ⟨_, rfl, Or.inr ⟨?_, rfl⟩⟩
      intro e he
      cases he
    | some e =>
      by_cases he : e = ""
      · subst he
        simp only [ne_eq, not_true_eq_false, if_false]
        refine ⟨_, rfl, Or.inr ⟨?_, rfl⟩⟩
        intro e' he'
        injection he' with h
        exact h.symm
      · simp only [ne_eq, he, not_false_eq_true, if_true]
        exact ⟨_, rfl, Or.inl ⟨e, rfl, he, rfl⟩⟩
  · exact ⟨rfl, ⟨"HTTP 400: ", "", rfl⟩, ⟨"HTTP ", ": bad input", rfl⟩⟩

/-- Witness for C3 at the spec's 400 example. -/
theorem claim_C3_witness :
    (300 : Nat) ≤ 400 ∧
    ∃ msg, handleResponse 400 "\x7b\"error\":\"bad input\"\x7d" true = Except.error msg ∧
      ((∃ e, goErrorField "\x7b\"error\":\"bad input\"\x7d" = some e ∧ e ≠ "" ∧
          msg = "HTTP " ++ toString (400 : Nat) ++ ": " ++ e) ∨
       ((∀ e, goErrorField "\x7b\"error\":\"bad input\"\x7d" = some e → e = "") ∧
          msg = "HTTP " ++ toString (400 : Nat) ++ ": " ++
            goTrim "\x7b\"error\":\"bad input\"\x7d")) :=
  ⟨by decide, claim_C3.1 400 "\x7b\"error\":\"bad input\"\x7d" true (by decide)⟩

/-- C4: on every request the client builds, the `Authentication` header
is absent when the API key is empty and carries exactly the key when it
is non-empty. -/
theorem claim_C4 :
    ∀ (apiKey baseURL method path : String) (body : Option JValue)
      (query : List (String × String)),
      (apiKey = "" →
        ∀ v, ("Authentication", v) ∉
          (newReq apiKey baseURL method path body query).headers) ∧
      (apiKey ≠ "" →
        List.lookup "Authentication"
            (newReq apiKey baseURL method path body query).headers = some apiKey ∧
        ∀ v, ("Authentication", v) ∈
            (newReq apiKey baseURL method path body query).headers → v = apiKey) := by
  intro apiKey baseURL method path body query
  constructor
  · rintro rfl v hv
    simp only [newReq, ne_eq, not_true_eq_false, if_false] at hv
    cases body <;> simp_all
  · intro hne
    constructor
    · simp [newReq, hne, List.lookup]
    · intro v hv
      simp only [newReq, ne_eq, hne, not_false_eq_true, if_true] at hv
      cases body <;> simp_all

/-- Witness for C4 with a non-empty key. -/
theorem claim_C4_witness :
    "k" ≠ "" ∧
    List.lookup "Authentication" (newReq "k" "http://x" "GET" "/p" none []).headers =
      some "k" :=
  ⟨by decide, ((claim_C4 "k" "http://x" "GET" "/p" none []).2 (by decide)).1⟩

/-- A non-empty trim forces a non-empty original. -/
theorem ne_empty_of_goTrim_ne_empty {s : String} (h : goTrim s ≠ "") : s ≠ "" := by
  intro hs
  subst hs
  exact h rfl

/-- Any member of the conditional hostname query names the hostname
parameter with a non-empty caller value. -/
theorem mem_aliasOptionsQuery {hostname k v : String}
    (h : (k, v) ∈ aliasOptionsQuery hostname) :
    k = "hostname" ∧ v = hostname ∧ hostname ≠ "" := by
  unfold aliasOptionsQuery at h
  by_cases ht : goTrim hostname ≠ ""
  · rw [if_pos ht] at h
    have h2 := List.mem_singleton.mp h
    rw [Prod.mk.injEq] at h2
    exact ⟨h2.1, h2.2, ne_empty_of_goTrim_ne_empty ht⟩
  · rw [if_neg ht] at h
    cases h

/-- A hostname member of the random-alias query forces a non-empty
caller hostname. -/
theorem randomQuery_hostname_ne {hostname mode v : String}
    (h : ("hostname", v) ∈ randomAliasQuery hostname mode) : hostname ≠ "" := by
  rcases List.mem_append.mp h with h | h
  · exact (mem_aliasOptionsQuery h).2.2
  · by_cases hm : asciiLower (goTrim mode) ≠ ""
    · rw [if_pos hm] at h
      have h2 : "hostname" = "mode" := congrArg Prod.fst (List.mem_singleton.mp h)
      exact absurd h2 (by decide)
    · rw [if_neg hm] at h
      cases h

/-- C5: the query is merged into the path with `&` when the path
already carries `?` and with `?` otherwise (and only when the query is
non-empty); a hostname or mode parameter is present only when the
caller supplied a non-empty value; multiple parameters are joined by
`&`, also when the path already had a query string. -/
theorem claim_C5 :
    (∀ (apiKey baseURL method path : String) (body : Option JValue)
       (query : List (String × String)),
      (query = [] →
        (newReq apiKey baseURL method path body query).url = baseURL ++ path) ∧
      (query ≠ [] →
        (newReq apiKey baseURL method path body query).url =
          (baseURL ++ path) ++
            (if hasQMark (baseURL ++ path) then "&" else "?") ++ encodeQuery query)) ∧
    (∀ hostname k v, (k, v) ∈ aliasOptionsQuery hostname →
      k = "hostname" ∧ v = hostname ∧ hostname ≠ "") ∧
    (∀ hostname mode v, ("mode", v) ∈ randomAliasQuery hostname mode → mode ≠ "") ∧
    (∀ hostname mode v, ("hostname", v) ∈ randomAliasQuery hostname mode →
      hostname ≠ "") ∧
    (∀ page hostname v, ("hostname", v) ∈ listAliasesQuery page hostname →
      hostname ≠ "") ∧
    (∀ p ps, ps ≠ [] → joinParams (p :: ps) = p ++ "&" ++ joinParams ps) ∧
    (encodeQuery [("page_id", "2"), ("hostname", "ex.com")] =
        "hostname=ex.com&page_id=2" ∧
     (newReq "k" "http://x" "GET" "/p?x=1" none [("y", "2")]).url =
        "http://x/p?x=1&y=2") := by
  refine ⟨?_, ?_, ?_, ?_, ?_, ?_, rfl, rfl⟩
  · intro apiKey baseURL method path body query
    constructor
    · rintro rfl; rfl
    · intro hq
      by_cases hm : hasQMark (baseURL ++ path)
      · simp [newReq, hq, hm, String.append_assoc]
      · simp [newReq, hq, hm, String.append_assoc]
  · intro hostname k v hkv
    exact mem_aliasOptionsQuery hkv
  · intro hostname mode v hv
    unfold randomAliasQuery at hv
    rcases List.mem_append.mp hv with h | h
    · unfold aliasOptionsQuery at h
      by_cases ht : goTrim hostname ≠ ""
      · rw [if_pos ht] at h
        have h2 : "mode" = "hostname" := congrArg Prod.fst (List.mem_singleton.mp h)
        exact absurd h2 (by decide)
      · rw [if_neg ht] at h
        cases h
    · by_cases hm : asciiLower (goTrim mode) ≠ ""
      · rw [if_pos hm] at h
        intro hmode
        subst hmode
        exact hm rfl
      · rw [if_neg hm] at h
        cases h
  · intro hostname mode v hv
    exact randomQuery_hostname_ne hv
  · intro page hostname v hv
    rcases List.mem_append.mp hv with h | h
    · unfold aliasOptionsQuery at h
      by_cases ht : goTrim hostname ≠ ""
      · rw [if_pos ht] at h
        cases List.mem_singleton.mp h
        exact ne_empty_of_goTrim_ne_empty ht
      · rw [if_neg ht] at h
        cases h
    · have h2 : "hostname" = "page_id" := congrArg Prod.fst (List.mem_singleton.mp h)
      exact absurd h2 (by decide)
  · intro p ps hps
    cases ps with
    | nil => exact absurd rfl hps
    | cons q qs => rfl

/-- Witness for C5: a non-empty query on a path already carrying `?`. -/
theorem claim_C5_witness :
    ([("y", "2")] : List (String × String)) ≠ [] ∧
    (newReq "k" "http://x" "GET" "/p?x=1" none [("y", "2")]).url =
      ("http://x" ++ "/p?x=1") ++
        (if hasQMark ("http://x" ++ "/p?x=1") then "&" else "?") ++
        encodeQuery [("y", "2")] :=
  ⟨by decide,
   ((claim_C5.1 "k" "http://x" "GET" "/p?x=1" none [("y", "2")]).2 (by decide))⟩

/-- C6: delete-by-ID issues a DELETE to `/api/aliases/{id}`, with the
hostname parameter only when a non-blank hostname was supplied, sends
no body, and decides success or failure purely from the status code
(the discarded response body never matters). -/
theorem claim_C6 :
    ∀ (apiKey baseURL : String) (aliasID : Int) (hostname : String),
      (deleteAliasReq apiKey baseURL aliasID hostname).method = "DELETE" ∧
      (deleteAliasReq apiKey baseURL aliasID hostname).body = none ∧
      (goTrim hostname = "" →
        (deleteAliasReq apiKey baseURL aliasID hostname).url =
          baseURL ++ ("/api/aliases/" ++ toString aliasID)) ∧
      (goTrim hostname ≠ "" →
        hasQMark (baseURL ++ ("/api/aliases/" ++ toString aliasID)) = false →
        (deleteAliasReq apiKey baseURL aliasID hostname).url =
          baseURL ++ ("/api/aliases/" ++ toString aliasID) ++ "?" ++
            encodeQuery [("hostname", hostname)]) ∧
      (∀ v, ("hostname", v) ∈ aliasOptionsQuery hostname → hostname ≠ "") ∧
      (∀ (status : Nat) (body : String),
        handleResponse status body false = Except.ok none ↔ status < 300) := by
  intro apiKey baseURL aliasID hostname
  refine ⟨rfl, ?_, ?_, ?_, ?_, ?_⟩
  · unfold deleteAliasReq newReq
    cases h : aliasOptionsQuery hostname <;> simp [h]
  · intro ht
    simp [deleteAliasReq, newReq, aliasOptionsQuery, ht]
  · intro ht hqm
    simp [deleteAliasReq, newReq, aliasOptionsQuery, ht, hqm]
  · intro v hv
    unfold aliasOptionsQuery at hv
    by_cases ht : goTrim hostname ≠ ""
    · rw [if_pos ht] at hv
      cases List.mem_singleton.mp hv
      exact ne_empty_of_goTrim_ne_empty ht
    · rw [if_neg ht] at hv
      cases hv
  · intro status body
    unfold handleResponse
    by_cases h : 300 ≤ status
    · rw [if_pos h]
      constructor
      · intro hok
        exfalso
        cases hef : goErrorField body with
        | none =>
          rw [hef] at hok
          simp at hok
        | some e =>
          rw [hef] at hok
          by_cases he : e = "" <;> simp [he] at hok
      · intro hlt
        omega
    · rw [if_neg h]
      constructor
      · intro _
        omega
      · intro _
        rfl

/-- Witness for C6: a delete of alias 99 with hostname `ex.com`. -/
theorem claim_C6_witness :
    goTrim "ex.com" ≠ "" ∧
    hasQMark ("http://x" ++ ("/api/aliases/" ++ toString (99 : Int))) = false ∧
    (deleteAliasReq "k" "http://x" 99 "ex.com").url =
      "http://x" ++ ("/api/aliases/" ++ toString (99 : Int)) ++ "?" ++
        encodeQuery [("hostname", "ex.com")] ∧
    (handleResponse 204 "" false = Except.ok none ↔ (204 : Nat) < 300) :=
  ⟨by decide, by decide,
   (claim_C6 "k" "http://x" 99 "ex.com").2.2.2.1 (by decide) (by decide),
   (claim_C6 "k" "http://x" 99 "ex.com").2.2.2.2.2 204 ""⟩

/-- C7 counterexample: the options hold an entry whose plain suffix is
exactly the requested `.a@b`, so the claim says its signed suffix (here
the empty string) is adopted; the code instead fails with the local
not-found error, because the loop's empty-string sentinel cannot tell
"no entry matched" from "the first match carries an empty signed
suffix". -/
theorem claim_C7_cex :
    (AliasOptionsResponse.mk true "" [⟨"", ".a@b", false, false⟩]).suffixes.find?
        (fun s => s.suffix = ".a@b") = some ⟨"", ".a@b", false, false⟩ ∧
    resolvePlainSuffix ⟨true, "", [⟨"", ".a@b", false, false⟩]⟩ ".a@b" ≠
      Except.ok "" ∧
    resolvePlainSuffix ⟨true, "", [⟨"", ".a@b", false, false⟩]⟩ ".a@b" =
      Except.error "suffix \".a@b\" not found in available options" := by
  have h3 : resolvePlainSuffix ⟨true, "", [⟨"", ".a@b", false, false⟩]⟩ ".a@b" =
      Except.error "suffix \".a@b\" not found in available options" := rfl
  refine ⟨rfl, ?_, h3⟩
  rw [h3]
  exact fun h => Except.noConfusion h

/-- C7 (amended): resolving a plain suffix scans the fetched options
for the first entry whose plain suffix equals the given string under
case-sensitive full-string comparison and adopts its signed suffix when
that signed suffix is non-empty; if no entry matches — or the first
matching entry's signed suffix is the empty string — it fails with the
local not-found validation error, issuing no create request and no
retry (the create call only happens on the `ok` path of `runCustom`). -/
theorem claim_C7 :
    ∀ (opt : AliasOptionsResponse) (suffix : String),
      ((∀ s, s ∈ opt.suffixes → s.suffix ≠ suffix) →
        resolvePlainSuffix opt suffix =
          Except.error ("suffix \"" ++ suffix ++ "\" not found in available options")) ∧
      (∀ s, opt.suffixes.find? (fun t => t.suffix = suffix) = some s →
        (s.signedSuffix ≠ "" →
          resolvePlainSuffix opt suffix = Except.ok s.signedSuffix) ∧
        (s.signedSuffix = "" →
          resolvePlainSuffix opt suffix =
            Except.error
              ("suffix \"" ++ suffix ++ "\" not found in available options"))) := by
  intro opt suffix
  constructor
  · intro hnone
    have hfind : opt.suffixes.find? (fun t => t.suffix = suffix) = none := by
      rw [List.find?_eq_none]
      intro x hx
      simp [hnone x hx]
    unfold resolvePlainSuffix
    rw [scanSuffixes_eq, hfind]
    rfl
  · intro s hs
    unfold resolvePlainSuffix
    rw [scanSuffixes_eq, hs]
    constructor
    · intro hne
      simp [hne]
    · intro he
      simp [he]

/-- Witness for C7 at the spec's `.yeah@sl.lan` example. -/
theorem claim_C7_witness :
    (AliasOptionsResponse.mk true "" [⟨".yeah@sl.lan.sig", ".yeah@sl.lan", true, false⟩]).suffixes.find?
        (fun t => t.suffix = ".yeah@sl.lan") =
      some ⟨".yeah@sl.lan.sig", ".yeah@sl.lan", true, false⟩ ∧
    resolvePlainSuffix ⟨true, "", [⟨".yeah@sl.lan.sig", ".yeah@sl.lan", true, false⟩]⟩
        ".yeah@sl.lan" = Except.ok ".yeah@sl.lan.sig" :=
  ⟨rfl,
   ((claim_C7 ⟨true, "", [⟨".yeah@sl.lan.sig", ".yeah@sl.lan", true, false⟩]⟩
      ".yeah@sl.lan").2 ⟨".yeah@sl.lan.sig", ".yeah@sl.lan", true, false⟩ rfl).1
     (by decide)⟩

/-- C8 counterexample: with the caller value `" WORD "` the sent mode
parameter is `"word"` — the value is trimmed before lower-casing — not
the lower-cased caller value `" word "` the claim prescribes. -/
theorem claim_C8_cex :
    randomAliasQuery "" " WORD " = [("mode", "word")] ∧
    asciiLower " WORD " = " word " ∧
    ("mode", asciiLower " WORD ") ∉ randomAliasQuery "" " WORD " :=
  ⟨rfl, rfl, by decide⟩

/-- C8 (amended): create-random-alias sends a POST whose mode query
parameter is the lower-cased, whitespace-trimmed caller value and is
omitted when that trimmed value is empty; the hostname parameter is
included only when non-empty; and the JSON note body is attached only
when the note is non-empty, in which case the JSON content-type header
is set. -/
theorem claim_C8 :
    ∀ (apiKey baseURL hostname mode : String) (note : Option String),
      (createRandomAliasReq apiKey baseURL hostname mode note).method = "POST" ∧
      (∀ v, ("mode", v) ∈ randomAliasQuery hostname mode ↔
        (asciiLower (goTrim mode) ≠ "" ∧ v = asciiLower (goTrim mode))) ∧
      (∀ v, ("hostname", v) ∈ randomAliasQuery hostname mode → hostname ≠ "") ∧
      ((createRandomAliasReq apiKey baseURL hostname mode note).body.isSome ↔
        ∃ n, note = some n ∧ n ≠ "") ∧
      (∀ n, note = some n → n ≠ "" →
        (createRandomAliasReq apiKey baseURL hostname mode note).body =
          some (JValue.obj [("note", JValue.str n)])) ∧
      (List.lookup "Content-Type"
          (createRandomAliasReq apiKey baseURL hostname mode note).headers =
        some "application/json" ↔
        (createRandomAliasReq apiKey baseURL hostname mode note).body.isSome) := by
  intro apiKey baseURL hostname mode note
  refine ⟨rfl, ?_, fun v hv => randomQuery_hostname_ne hv, ?_, ?_, ?_⟩
  · intro v
    constructor
    · intro hv
      rcases List.mem_append.mp hv with h | h
      · unfold aliasOptionsQuery at h
        by_cases ht : goTrim hostname ≠ ""
        · rw [if_pos ht] at h
          have h2 : "mode" = "hostname" := congrArg Prod.fst (List.mem_singleton.mp h)
          exact absurd h2 (by decide)
        · rw [if_neg ht] at h
          cases h
      · by_cases hm : asciiLower (goTrim mode) ≠ ""
        · rw [if_pos hm] at h
          have h2 := List.mem_singleton.mp h
          rw [Prod.mk.injEq] at h2
          exact ⟨hm, h2.2⟩
        · rw [if_neg hm] at h
          cases h
    · rintro ⟨hm, rfl⟩
      exact List.mem_append.mpr (Or.inr (by rw [if_pos hm]; exact List.mem_singleton.mpr rfl))
  · unfold createRandomAliasReq newReq
    cases note with
    | none => simp
    | some n =>
      by_cases hn : n = ""
      · simp [hn]
      · simp [hn]
  · intro n hn hne
    subst hn
    simp [createRandomAliasReq, newReq, hne]
  · unfold createRandomAliasReq newReq
    set body : Option JValue :=
      (match note with
       | some n => if n ≠ "" then some (JValue.obj [("note", JValue.str n)]) else none
       | none => none) with hbody
    cases hb : body with
    | none => by_cases hk : apiKey ≠ "" <;> simp [hk, List.lookup, hb]
    | some v => by_cases hk : apiKey ≠ "" <;> simp [hk, List.lookup, hb]

/-- Witness for C8 with mode `WORD` and note `n`. -/
theorem claim_C8_witness :
    (some "n" : Option String) = some "n" ∧ ("n" : String) ≠ "" ∧
    (createRandomAliasReq "k" "http://x" "ex.com" "WORD" (some "n")).body =
      some (JValue.obj [("note", JValue.str "n")]) :=
  ⟨rfl, by decide,
   (claim_C8 "k" "http://x" "ex.com" "WORD" (some "n")).2.2.2.2.1 "n" rfl (by decide)⟩

/-- Decoding an encoded integer list recovers it. -/
theorem decodeInts_map_num (xs : List Int) :
    decodeInts (xs.map JValue.num) = some xs := by
  induction xs with
  | nil => rfl
  | cons x rest ih => simp [decodeInts, ih]

/-- C9: JSON-encoding a custom-alias creation request and decoding the
result back preserves the alias prefix, the signed suffix, and the
mailbox ID list in order (indeed the whole request). -/
theorem claim_C9 :
    ∀ r : CustomAliasRequest,
      ∃ r', decodeCustomAliasRequest (encodeCustomAliasRequest r) = some r' ∧
        r'.aliasPre = r.aliasPre ∧
        r'.signedSuffix = r.signedSuffix ∧
        r'.mailboxIDs = r.mailboxIDs := by
  intro r
  refine ⟨r, ?_, rfl, rfl, rfl⟩
  obtain ⟨ap, ss, ids, note, name⟩ := r
  cases ids with
  | none => cases note <;> cases name <;> rfl
  | some xs =>
    cases note <;> cases name <;>
      simp [encodeCustomAliasRequest, decodeCustomAliasRequest, lastField,
        List.foldl, decodeStr, decodeOptStr, decodeIDs, decodeInts_map_num,
        asciiLower, Option.bind]

/-- C10: create-custom-alias runs no local validation of the mailbox ID
list — for every input, a nil or empty list included, a POST request is
built and the list is serialized into the `mailbox_ids` member of the
JSON body (nil as null, empty as `[]`). -/
theorem claim_C10 :
    ∀ (apiKey baseURL hostname aliasPre signedSuffix : String)
      (mailboxIDs : Option (List Int)) (note name : Option String),
      (createCustomAliasReq apiKey baseURL hostname aliasPre signedSuffix
        mailboxIDs note name).method = "POST" ∧
      ∃ fields,
        (createCustomAliasReq apiKey baseURL hostname aliasPre signedSuffix
          mailboxIDs note name).body = some (JValue.obj fields) ∧
        ("mailbox_ids",
          match mailboxIDs with
          | none => JValue.null
          | some ids => JValue.arr (ids.map JValue.num)) ∈ fields ∧
        (mailboxIDs = none → ("mailbox_ids", JValue.null) ∈ fields) ∧
        (mailboxIDs = some [] → ("mailbox_ids", JValue.arr []) ∈ fields) := by
  intro apiKey baseURL hostname aliasPre signedSuffix mailboxIDs note name
  refine ⟨rfl, ?_⟩
  cases note <;> cases name <;>
    exact ⟨_, rfl, by simp, fun h => by subst h; simp, fun h => by subst h; simp⟩

/-- Witness for C10 at a nil mailbox list. -/
theorem claim_C10_witness :
    ∃ fields,
      (createCustomAliasReq "k" "http://x" "" "p" ".x@y.sig" none none none).body =
        some (JValue.obj fields) ∧
      ("mailbox_ids", JValue.null) ∈ fields := by
  obtain ⟨-, fields, hbody, -, hnil, -⟩ :=
    claim_C10 "k" "http://x" "" "p" ".x@y.sig" none none none
  exact ⟨fields, hbody, hnil rfl⟩

/-- The delete-by-email scan lists consecutive pages starting from the
page it was called at. -/
theorem deleteScan_pages (email : String) :
    ∀ (pages : List (List Alias)) (page : Nat),
      ∃ k, 1 ≤ k ∧
        (deleteScan email pages page).1.filterMap pageOfCall = List.range' page k := by
  intro pages
  induction pages with
  | nil => exact fun page => ⟨1, le_refl 1, rfl⟩
  | cons pg rest ih =>
    intro page
    by_cases hemp : pg.isEmpty
    · exact ⟨1, le_refl 1, by simp [deleteScan, hemp]; rfl⟩
    · cases hf : pg.find? (fun a => a.email = email) with
      | some a =>
        exact ⟨1, le_refl 1, by simp [deleteScan, hemp, hf]; rfl⟩
      | none =>
        obtain ⟨k, hk, heq⟩ := ih (page + 1)
        refine ⟨k + 1, by omega, ?_⟩
        have hcalls : (deleteScan email (pg :: rest) page).1 =
            ApiCall.listCall page :: (deleteScan email rest (page + 1)).1 := by
          simp [deleteScan, hemp, hf]
        rw [hcalls, List.filterMap_cons]
        simp only [pageOfCall]
        rw [heq]
        rfl

/-- A match reported by the scan names an alias with the target email
on one of the pages. -/
theorem deleteScan_found (email : String) :
    ∀ (pages : List (List Alias)) (page : Nat) (id : Int),
      (deleteScan email pages page).2 = some id →
      ∃ pg, pg ∈ pages ∧ ∃ a, a ∈ pg ∧ a.email = email ∧ a.id = id := by
  intro pages
  induction pages with
  | nil => intro page id h; cases h
  | cons pg rest ih =>
    intro page id h
    by_cases hemp : pg.isEmpty
    · rw [show (deleteScan email (pg :: rest) page).2 = none by
        simp [deleteScan, hemp]] at h
      cases h
    · cases hf : pg.find? (fun a => a.email = email) with
      | some a =>
        rw [show (deleteScan email (pg :: rest) page).2 = some a.id by
          simp [deleteScan, hemp, hf]] at h
        injection h with h
        refine ⟨pg, List.mem_cons_self pg rest, a, List.mem_of_find?_eq_some hf, ?_, h⟩
        simpa using List.find?_some hf
      | none =>
        rw [show (deleteScan email (pg :: rest) page).2 =
            (deleteScan email rest (page + 1)).2 by simp [deleteScan, hemp, hf]] at h
        obtain ⟨pg', hpg', a, ha, he, hid⟩ := ih (page + 1) id h
        exact ⟨pg', List.mem_cons_of_mem pg hpg', a, ha, he, hid⟩

/-- The scan issues a delete call exactly when it reports that match. -/
theorem deleteScan_delete_iff (email : String) :
    ∀ (pages : List (List Alias)) (page : Nat) (id : Int),
      ApiCall.deleteCall id ∈ (deleteScan email pages page).1 ↔
        (deleteScan email pages page).2 = some id := by
  intro pages
  induction pages with
  | nil => intro page id; simp [deleteScan]
  | cons pg rest ih =>
    intro page id
    by_cases hemp : pg.isEmpty
    · simp [deleteScan, hemp]
    · cases hf : pg.find? (fun a => a.email = email) with
      | some a =>
        have h1 : deleteScan email (pg :: rest) page =
            ([ApiCall.listCall page, ApiCall.deleteCall a.id], some a.id) := by
          simp [deleteScan, hemp, hf]
        rw [h1]
        simp [eq_comm]
      | none =>
        have h1 : deleteScan email (pg :: rest) page =
            (ApiCall.listCall page :: (deleteScan email rest (page + 1)).1,
              (deleteScan email rest (page + 1)).2) := by
          simp [deleteScan, hemp, hf]
        rw [h1]
        simp [ih (page + 1) id]

/-- C1: delete-by-email lists pages at consecutive increasing indices
from the service's first page; any delete call it issues targets the ID
of an alias whose email equals the target exactly; when no page holds a
match it issues no delete call and returns success (absence is not an
error); an empty first page stops the scan immediately; and on a match
the result is the outcome of the delete by the found ID — including the
two paged-listing examples of the tests. -/
theorem claim_C1 :
    (∀ (pages : List (List Alias)) (email : String)
       (deleteResult : Int → Except String Unit),
      (∃ k, 1 ≤ k ∧
        (deleteAliasByEmail pages email deleteResult).1.filterMap pageOfCall =
          List.range' 0 k) ∧
      (∀ id, ApiCall.deleteCall id ∈ (deleteAliasByEmail pages email deleteResult).1 →
        ∃ pg, pg ∈ pages ∧ ∃ a, a ∈ pg ∧ a.email = email ∧ a.id = id) ∧
      ((∀ pg, pg ∈ pages → ∀ a, a ∈ pg → a.email ≠ email) →
        (∀ id, ApiCall.deleteCall id ∉ (deleteAliasByEmail pages email deleteResult).1) ∧
        (deleteAliasByEmail pages email deleteResult).2 = Except.ok ()) ∧
      (∀ rest, pages = [] :: rest →
        (deleteAliasByEmail pages email deleteResult).1 = [ApiCall.listCall 0] ∧
        (deleteAliasByEmail pages email deleteResult).2 = Except.ok ()) ∧
      (∀ id, (deleteScan email pages 0).2 = some id →
        ApiCall.deleteCall id ∈ (deleteAliasByEmail pages email deleteResult).1 ∧
        (deleteAliasByEmail pages email deleteResult).2 = deleteResult id)) ∧
    ((deleteAliasByEmail
        [[⟨5, "t@sl", none, true, 0, none, 0, 0, 0, false⟩]] "t@sl"
        (fun _ => Except.ok ())).1 =
          [ApiCall.listCall 0, ApiCall.deleteCall 5] ∧
     (deleteAliasByEmail [] "notfound@sl" (fun _ => Except.ok ())).1 =
          [ApiCall.listCall 0] ∧
     (deleteAliasByEmail [] "notfound@sl" (fun _ => Except.ok ())).2 =
          Except.ok ()) := by
  constructor
  · intro pages email deleteResult
    refine ⟨?_, ?_, ?_, ?_, ?_⟩
    · exact deleteScan_pages email pages 0
    · intro id hmem
      exact deleteScan_found email pages 0 id
        ((deleteScan_delete_iff email pages 0 id).mp hmem)
    · intro hnone
      have hscan : (deleteScan email pages 0).2 = none := by
        cases hs : (deleteScan email pages 0).2 with
        | none => rfl
        | some id =>
          obtain ⟨pg, hpg, a, ha, he, -⟩ := deleteScan_found email pages 0 id hs
          exact absurd he (hnone pg hpg a ha)
      constructor
      · intro id hmem
        have hmem2 : ApiCall.deleteCall id ∈ (deleteScan email pages 0).1 := hmem
        rw [deleteScan_delete_iff email pages 0 id, hscan] at hmem2
        cases hmem2
      · show (match (deleteScan email pages 0).2 with
          | some id => deleteResult id
          | none => Except.ok ()) = Except.ok ()
        rw [hscan]
    · rintro rest rfl
      exact ⟨rfl, rfl⟩
    · intro id hs
      refine ⟨(deleteScan_delete_iff email pages 0 id).mpr hs, ?_⟩
      show (match (deleteScan email pages 0).2 with
        | some i => deleteResult i
        | none => Except.ok ()) = deleteResult id
      rw [hs]
  · exact ⟨rfl, rfl, rfl⟩

/-- Witness for C1: an empty first page stops the scan with silent
success and no delete call. -/
theorem claim_C1_witness :
    (deleteAliasByEmail [[]] "x" (fun _ => Except.ok ())).1 =
        [ApiCall.listCall 0] ∧
    (deleteAliasByEmail [[]] "x" (fun _ => Except.ok ())).2 = Except.ok () :=
  (claim_C1.1 [[]] "x" (fun _ => Except.ok ())).2.2.2.1 [] rfl

end SimpleLogin
